import Mathlib

/-!
# ZDOCK pruning: greedy rank-seeded clustering (`Pruning::prune`) and grid
circularization (`Pruning::boxTranslation`)

A shallow embedding of `src/src/Pruning.cpp` (`Pruning::prune`) and of
`src/src/Pruning.hpp` (`Pruning::boxTranslation`).

Conventions of the embedding.

* `double` values live in a type `D`.  The clustering only ever compares them
  (`rmsd < cutoff_`, `std::min`), so `D` is any type with a decidable `<`; no
  order law is assumed of it, so that the comparison may fail in both
  directions as it does on an IEEE NaN.  Theorems that need the laws of a
  linear order (no NaN among the values) say so.  The floating-point
  primitives the code calls (Eigen, libm, the coordinate transforms of
  `TransformLigand` / `TransformMultimer`) are the fields of `Numerics`; every
  theorem holds for every choice of them.
* `int` and `size_t` values are natural numbers (`clusters`, the entries of
  `l` and the loop counters never exceed the number of predictions, so no
  32-bit arithmetic wraps); the grid indices and the box size of
  `boxTranslation` are integers, small enough for `t - boxsize_` not to
  overflow.
* `zdock_.npredictions()` is the length of `zdock_.predictions()`.
* A bounds-checked `.at(k)` that throws, or an unchecked `v[k]` out of range,
  makes the step return `none`.
* The progress line written to `std::cerr` is not part of the state.
-/

namespace zdock

/-- A prediction record of a ZDOCK output file.
Modelled from the spec: `ZDOCK.hpp` (the declaration of `zdock::Prediction`) is
not among the sources; the fields are the ones `prune` and `txLigand` use:
three rotation angles, a grid translation and a score. -/
structure Prediction (D : Type) where
  rotation : D × D × D
  translation : Int × Int × Int
  score : D
deriving DecidableEq

/-- The numeric collaborators of `prune`: the pose transforms `txLigand` and
`txMultimer`, Eigen's matrix difference, `squaredNorm` and `cols`, the division
and `std::sqrt` on `double`, the conversion `static_cast<double>(int)` and
`std::numeric_limits<double>::max()`. `M` is the type of coordinate matrices. -/
structure Numerics (M D : Type) where
  txLigand : M → Prediction D → M
  txMultimer : M → Prediction D → Nat → M
  sub : M → M → M
  squaredNorm : M → D
  div : D → D → D
  sqrt : D → D
  cols : M → D
  ofInt : Nat → D
  dblMax : D

/-- The value of `std::min(a, b)`: `(b < a) ? b : a`. -/
def stdMin {D : Type} [LT D] [DecidableRel (fun a b : D => a < b)] (a b : D) : D :=
  if b < a then b else a

/-- The expression `std::sqrt((a - b).squaredNorm() / strucsize)`. -/
def rmsd {M D : Type} (K : Numerics M D) (strucsize : D) (a b : M) : D :=
  K.sqrt (K.div (K.squaredNorm (K.sub a b)) strucsize)

/-- The pose caches `poses0`, `poses1` built before clustering
(Pruning.cpp lines 75-87): one entry per prediction, in rank order. -/
def mkPoses {M D : Type} (K : Numerics M D) (ismzdock : Bool) (pdb : M)
    (v : List (Prediction D)) : List M × List M :=
  if ismzdock then
    (v.map (fun p => K.txMultimer pdb p 0), v.map (fun p => K.txMultimer pdb p 2))
  else
    (v.map (fun p => K.txLigand pdb p), [])

/-- The distance `rmsd` that `prune` compares with the cutoff for seed `i` and
candidate `j` (Pruning.cpp lines 116-126); `none` when an `.at()` throws. -/
def pairRmsd {M D : Type} [LT D] [DecidableRel (fun a b : D => a < b)] (K : Numerics M D) (ismzdock : Bool)
    (strucsize : D) (poses0 poses1 : List M) (i j : Nat) : Option D :=
  if ismzdock then
    match poses0[i]?, poses0[j]?, poses1[j]? with
    | some a, some b, some c => some (stdMin (rmsd K strucsize a b) (rmsd K strucsize a c))
    | _, _, _ => none
  else
    match poses0[i]?, poses0[j]? with
    | some a, some b => some (rmsd K strucsize a b)
    | _, _ => none

/-- The local variables of `prune` that the two loops update. -/
structure PruneState (D : Type) where
  preds : List (Prediction D)
  l : List Nat
  clusters : Nat
  assigned : Nat
  min : D

/-- The loop `for (size_t j = lo; j < lo + count; ++j) body`, stopping at the
first iteration that throws. -/
def forLoop {σ : Type} (body : σ → Nat → Option σ) : Nat → Nat → σ → Option σ
  | 0, _, s => some s
  | count + 1, j, s => (body s j).bind (forLoop body count (j + 1))

/-- One iteration of the inner loop over `j` (Pruning.cpp lines 115-138). -/
def innerBody {M D : Type} [LT D] [DecidableRel (fun a b : D => a < b)] (K : Numerics M D)
    (ismzdock getclusters : Bool) (cutoff strucsize : D) (v : List (Prediction D))
    (poses0 poses1 : List M) (i : Nat) (s : PruneState D) (j : Nat) :
    Option (PruneState D) :=
  match s.l[j]? with
  | none => none
  | some lj =>
    if lj ≠ 0 then some s
    else
      match pairRmsd K ismzdock strucsize poses0 poses1 i j with
      | none => none
      | some r =>
        let s1 := { s with min := stdMin s.min r }
        if r < cutoff then
          let s2 := { s1 with l := s1.l.set j (s1.clusters + 1), assigned := s1.assigned + 1 }
          if getclusters then
            match v[j]? with
            | none => none
            | some vj =>
              some { s2 with preds := s2.preds ++ [{ vj with score := K.ofInt (s1.clusters + 1) }] }
          else some s2
        else some s1

/-- One iteration of the outer loop over `i` (Pruning.cpp lines 103-141). -/
def outerBody {M D : Type} [LT D] [DecidableRel (fun a b : D => a < b)] (K : Numerics M D)
    (ismzdock getclusters : Bool) (cutoff strucsize : D) (v : List (Prediction D))
    (poses0 poses1 : List M) (n : Nat) (s : PruneState D) (i : Nat) :
    Option (PruneState D) :=
  match s.l[i]? with
  | none => none
  | some li =>
    if li ≠ 0 then some s
    else
      match v[i]? with
      | none => none
      | some vi =>
        let s1 : PruneState D :=
          { s with
            l := s.l.set i (s.clusters + 1)
            assigned := s.assigned + 1
            preds := s.preds ++
              [if getclusters then { vi with score := K.ofInt (s.clusters + 1) } else vi] }
        match forLoop (innerBody K ismzdock getclusters cutoff strucsize v poses0 poses1 i)
            (n - (i + 1)) (i + 1) s1 with
        | none => none
        | some s2 => some { s2 with clusters := s2.clusters + 1 }

/-- What `prune` leaves behind: the prediction list of `zdock_` and the members
`clusters_`, `strucsize_`, `nclusters_`. -/
structure PruneResult (D : Type) where
  predictions : List (Prediction D)
  clusters_ : List Nat
  strucsize_ : D
  nclusters_ : Nat
deriving DecidableEq

/-- `Pruning::prune` (Pruning.cpp lines 53-151). `pdb` is the CA-only coordinate
matrix read from the structure file, `v` the predictions of the ZDOCK file,
`ismzdock` the flag of that file. -/
def prune {M D : Type} [LT D] [DecidableRel (fun a b : D => a < b)] (K : Numerics M D) (ismzdock getclusters : Bool)
    (cutoff : D) (pdb : M) (v : List (Prediction D)) : Option (PruneResult D) :=
  let n := v.length
  let strucsize := K.cols pdb
  let poses := mkPoses K ismzdock pdb v
  let s0 : PruneState D :=
    { preds := [], l := List.replicate n 0, clusters := 0, assigned := 0, min := K.dblMax }
  match forLoop (outerBody K ismzdock getclusters cutoff strucsize v poses.1 poses.2 n) n 0 s0 with
  | none => none
  | some s =>
    some { predictions := s.preds, clusters_ := s.l, strucsize_ := strucsize,
           nclusters_ := s.clusters }

/-- The circularized grid index of one axis: the value
`t >= boxsize_ / 2 ? t - boxsize_ : t` (Pruning.hpp lines 34-36), with the
truncating integer division of C++. -/
def circularize (boxsize t : Int) : Int :=
  if t ≥ Int.tdiv boxsize 2 then t - boxsize else t

/-- `Pruning::boxTranslation` (Pruning.hpp lines 30-43): the displacement vector
of the translation it returns. -/
def boxTranslation {D : Type} [Ring D] (spacing : D) (boxsize : Int)
    (t : Int × Int × Int) (rev : Bool) : D × D × D :=
  let d : D × D × D :=
    ((circularize boxsize t.1 : Int), (circularize boxsize t.2.1 : Int),
     (circularize boxsize t.2.2 : Int))
  if rev then (-spacing * d.1, -spacing * d.2.1, -spacing * d.2.2)
  else (spacing * d.1, spacing * d.2.1, spacing * d.2.2)

/-! ## Vocabulary of the statements -/

/-- The cluster id stored at index `k` of the assignment vector (`0` past the end). -/
def lab (l : List Nat) (k : Nat) : Nat := (l[k]?).getD 0

/-- The test `rmsd < cutoff_` of `prune` for seed `i` and candidate `j`. -/
def closeTo {M D : Type} [LT D] [DecidableRel (fun a b : D => a < b)] (K : Numerics M D) (ismzdock : Bool)
    (cutoff strucsize : D) (poses0 poses1 : List M) (i j : Nat) : Bool :=
  match pairRmsd K ismzdock strucsize poses0 poses1 i j with
  | some r => decide (r < cutoff)
  | none => false

/-- A prediction with its score overwritten by the cluster id `c`. -/
def annotate {M D : Type} (K : Numerics M D) (c : Nat) (p : Prediction D) : Prediction D :=
  { p with score := K.ofInt c }

/-- Index `k` is a cluster representative in the assignment vector `l`: no
earlier prediction carries the cluster id of `k` (it is the one that opened
its cluster). -/
def isRepresentative (l : List Nat) (k : Nat) : Bool :=
  decide (k < l.length) && (List.range k).all (fun k' => lab l k' != lab l k)

/-- The indices of the cluster representatives, in rank order. -/
def representatives (l : List Nat) : List Nat :=
  (List.range l.length).filter (isRepresentative l)

/-- The indices of the predictions listed cluster by cluster: clusters in
increasing id order, the members of a cluster in rank order. -/
def clusterOrder (l : List Nat) (nclusters : Nat) : List Nat :=
  (List.range nclusters).flatMap (fun m =>
    (List.range l.length).filter (fun k => lab l k == m + 1))

/-- The pose caches after exchanging the first and the second placement of
prediction `k`. -/
def swapPlacement {M : Type} (poses0 poses1 : List M) (k : Nat) : List M × List M :=
  match poses0[k]?, poses1[k]? with
  | some a, some b => (poses0.set k b, poses1.set k a)
  | _, _ => (poses0, poses1)

/-- The distance of `prune` written on two predictions `p` (seed) and `q`
(candidate) instead of on their cached poses. -/
def predRmsd {M D : Type} [LT D] [DecidableRel (fun a b : D => a < b)] (K : Numerics M D) (ismzdock : Bool) (pdb : M)
    (p q : Prediction D) : D :=
  if ismzdock then
    stdMin (rmsd K (K.cols pdb) (K.txMultimer pdb p 0) (K.txMultimer pdb q 0))
      (rmsd K (K.cols pdb) (K.txMultimer pdb p 0) (K.txMultimer pdb q 2))
  else rmsd K (K.cols pdb) (K.txLigand pdb p) (K.txLigand pdb q)

/-- The distance that `prune`, run on the predictions `v`, computes for seed
index `i` and candidate index `j` from the pose caches it has built. -/
def dist {M D : Type} [LT D] [DecidableRel (fun a b : D => a < b)] (K : Numerics M D) (ismzdock : Bool) (pdb : M)
    (v : List (Prediction D)) (i j : Nat) : Option D :=
  pairRmsd K ismzdock (K.cols pdb) (mkPoses K ismzdock pdb v).1 (mkPoses K ismzdock pdb v).2 i j

/-- The loop invariant of the outer loop of `prune` at index `i`: `seeds` lists
the indices that started a cluster so far, in rank order. -/
structure OuterInv {M D : Type} [LT D] [DecidableRel (fun a b : D => a < b)] (K : Numerics M D)
    (ismzdock getclusters : Bool) (cutoff strucsize : D) (v : List (Prediction D))
    (poses0 poses1 : List M) (n i : Nat) (s : PruneState D) (seeds : List Nat) : Prop where
  len : s.l.length = n
  ncl : s.clusters = seeds.length
  sorted : seeds.Pairwise (· < ·)
  lt : ∀ r ∈ seeds, r < i
  zero : ∀ k, k < n → lab s.l k = 0 →
    i ≤ k ∧ ∀ r ∈ seeds, closeTo K ismzdock cutoff strucsize poses0 poses1 r k = false
  nz : ∀ k, k < n → lab s.l k ≠ 0 →
    ∃ m r, seeds[m]? = some r ∧ lab s.l k = m + 1 ∧
      (r = k ∨ (r < k ∧ closeTo K ismzdock cutoff strucsize poses0 poses1 r k = true)) ∧
      ∀ m' r', m' < m → seeds[m']? = some r' →
        closeTo K ismzdock cutoff strucsize poses0 poses1 r' k = false
  seedlab : ∀ m r, seeds[m]? = some r → lab s.l r = m + 1
  out : s.preds =
    if getclusters = true then
      (List.range seeds.length).flatMap (fun m =>
        ((List.range n).filter (fun k => lab s.l k == m + 1)).filterMap
          (fun k => (v[k]?).map (annotate K (m + 1))))
    else seeds.filterMap (fun k => v[k]?)

/-! ## A concrete instance: one CA atom moving on the x axis -/

/-- Integer square root by search, exact on perfect squares. -/
def isqrt (x : Int) : Int :=
  (((List.range (x.toNat + 1)).filter (fun k => k * k ≤ x.toNat)).length : Int) - 1

/-- Numerics for a structure of a single CA atom whose poses stay on the x axis:
a coordinate matrix is the x coordinate of the atom, the pose of a prediction
is the atom shifted by the x component of the grid translation (M-ZDOCK: the
second placement is shifted by a further 2). -/
def lineNumerics : Numerics Int Int where
  txLigand := fun pdb p => pdb + p.translation.1
  txMultimer := fun pdb p side => pdb + p.translation.1 + side
  sub := fun a b => a - b
  squaredNorm := fun a => a * a
  div := fun a b => Int.tdiv a b
  sqrt := isqrt
  cols := fun _ => 1
  ofInt := fun k => (k : Int)
  dblMax := 1000000

/-- A prediction with no rotation, grid translation `(x, 0, 0)` and score `sc`. -/
def linePred (x sc : Int) : Prediction Int :=
  { rotation := (0, 0, 0), translation := (x, 0, 0), score := sc }

/-! ## A concrete instance with NaN: a structure without CA atoms -/

/-- A `double` that is either NaN or an integer value. -/
inductive Ieee where
  | nan : Ieee
  | num : Int → Ieee
deriving DecidableEq

/-- The comparison `a < b` of IEEE doubles: false as soon as one side is NaN. -/
def Ieee.lt : Ieee → Ieee → Bool
  | Ieee.num a, Ieee.num b => decide (a < b)
  | _, _ => false

/-- The comparison `a <= b` of IEEE doubles: false as soon as one side is NaN. -/
def Ieee.le : Ieee → Ieee → Bool
  | Ieee.num a, Ieee.num b => decide (a ≤ b)
  | _, _ => false

instance : LT Ieee := ⟨fun a b => Ieee.lt a b = true⟩

instance : LE Ieee := ⟨fun a b => Ieee.le a b = true⟩

instance : DecidableRel (fun a b : Ieee => a < b) :=
  fun a b => inferInstanceAs (Decidable (Ieee.lt a b = true))

instance : DecidableRel (fun a b : Ieee => a ≤ b) :=
  fun a b => inferInstanceAs (Decidable (Ieee.le a b = true))

/-- The quotient `a / b` of IEEE doubles on the values of `Ieee`: NaN when an
operand is NaN and for `0 / 0` (the numerics below divide nothing else by
zero). -/
def Ieee.div : Ieee → Ieee → Ieee
  | Ieee.num a, Ieee.num b => if a = 0 ∧ b = 0 then Ieee.nan else Ieee.num (Int.tdiv a b)
  | _, _ => Ieee.nan

/-- The value of `std::sqrt` on the values of `Ieee`: NaN on NaN. -/
def Ieee.sqrt : Ieee → Ieee
  | Ieee.num a => Ieee.num (isqrt a)
  | Ieee.nan => Ieee.nan

/-- Numerics for a structure file without any CA atom: the coordinate matrix
has no column (`Unit`), every squared norm is 0 and `strucsize` is 0, so that
every distance is `sqrt(0 / 0)`, a NaN. -/
def emptyNumerics : Numerics Unit Ieee where
  txLigand := fun _ _ => ()
  txMultimer := fun _ _ _ => ()
  sub := fun _ _ => ()
  squaredNorm := fun _ => Ieee.num 0
  div := Ieee.div
  sqrt := Ieee.sqrt
  cols := fun _ => Ieee.num 0
  ofInt := fun k => Ieee.num (k : Int)
  dblMax := Ieee.num 1000000

/-- A prediction with no rotation, no translation and score 10. -/
def zeroPred : Prediction Ieee :=
  { rotation := (Ieee.num 0, Ieee.num 0, Ieee.num 0), translation := (0, 0, 0),
    score := Ieee.num 10 }

/-! ## The loops -/

theorem forLoop_inv {σ : Type} (body : σ → Nat → Option σ) (Inv : Nat → σ → Prop) (hi : Nat)
    (hstep : ∀ j s, j < hi → Inv j s → ∃ s', body s j = some s' ∧ Inv (j + 1) s') :
    ∀ (count lo : Nat) (s : σ), lo + count = hi → Inv lo s →
      ∃ s', forLoop body count lo s = some s' ∧ Inv hi s' := by
  intro count
  induction count with
  | zero =>
    intro lo s h hinv
    have : lo = hi := by omega
    exact ⟨s, rfl, this ▸ hinv⟩
  | succ c ih =>
    intro lo s h hinv
    obtain ⟨s1, h1, hinv1⟩ := hstep lo s (by omega) hinv
    obtain ⟨s2, h2, hinv2⟩ := ih (lo + 1) s1 (by omega) hinv1
    exact ⟨s2, by simp [forLoop, h1, h2], hinv2⟩

theorem lab_set (l : List Nat) (i c k : Nat) (hi : i < l.length) :
    lab (l.set i c) k = if k = i then c else lab l k := by
  unfold lab
  by_cases h : k = i
  · subst h; simp [hi]
  · have h' : i ≠ k := fun e => h e.symm
    simp [List.getElem?_set_ne h', h]

theorem lab_of_getElem? {l : List Nat} {k c : Nat} (h : l[k]? = some c) : lab l k = c := by
  simp [lab, h]

section Loops

variable {M D : Type} [LT D] [DecidableRel (fun a b : D => a < b)] (K : Numerics M D) (ismzdock getclusters : Bool)
  (cutoff strucsize : D) (v : List (Prediction D)) (poses0 poses1 : List M)

theorem innerBody_spec (i j : Nat) (s : PruneState D) (hj : j < s.l.length)
    (hjv : j < v.length)
    (hd : (pairRmsd K ismzdock strucsize poses0 poses1 i j).isSome = true) :
    ∃ s', innerBody K ismzdock getclusters cutoff strucsize v poses0 poses1 i s j = some s' ∧
      s'.clusters = s.clusters ∧
      s'.l = (if lab s.l j = 0 ∧ closeTo K ismzdock cutoff strucsize poses0 poses1 i j = true
              then s.l.set j (s.clusters + 1) else s.l) ∧
      s'.preds = (if lab s.l j = 0 ∧ closeTo K ismzdock cutoff strucsize poses0 poses1 i j = true
                    ∧ getclusters = true
                  then s.preds ++ [annotate K (s.clusters + 1) v[j]] else s.preds) := by
  obtain ⟨r, hr⟩ := Option.isSome_iff_exists.mp hd
  have hlj : s.l[j]? = some s.l[j] := List.getElem?_eq_getElem hj
  have hvj : v[j]? = some v[j] := List.getElem?_eq_getElem hjv
  have hlab : lab s.l j = s.l[j] := lab_of_getElem? hlj
  unfold innerBody
  rw [hlj]
  by_cases h0 : s.l[j] = 0
  · by_cases hc : r < cutoff
    · cases getclusters <;> simp [h0, hr, hc, hvj, hlab, closeTo, annotate]
    · simp [h0, hr, hc, hlab, closeTo]
  · simp [h0, hlab]

/-- The indices that the inner loop for seed `i` assigns among `i+1 .. j-1`,
given the assignment vector `l1` at the start of that loop. -/
theorem inner_spec (n i : Nat) (s1 : PruneState D) (hl : s1.l.length = n)
    (hv : v.length = n) (hi : i < n)
    (hd : ∀ j, j < n → (pairRmsd K ismzdock strucsize poses0 poses1 i j).isSome = true) :
    ∃ s2, forLoop (innerBody K ismzdock getclusters cutoff strucsize v poses0 poses1 i)
        (n - (i + 1)) (i + 1) s1 = some s2 ∧
      s2.clusters = s1.clusters ∧ s2.l.length = n ∧
      (∀ k, lab s2.l k =
        if i < k ∧ k < n ∧ lab s1.l k = 0 ∧
            closeTo K ismzdock cutoff strucsize poses0 poses1 i k = true
        then s1.clusters + 1 else lab s1.l k) ∧
      s2.preds = s1.preds ++
        (if getclusters = true then
          ((List.range' (i + 1) (n - (i + 1))).filter (fun k =>
              decide (lab s1.l k = 0) &&
                closeTo K ismzdock cutoff strucsize poses0 poses1 i k)).filterMap
            (fun k => (v[k]?).map (annotate K (s1.clusters + 1)))
         else []) := by
  have key := forLoop_inv
    (innerBody K ismzdock getclusters cutoff strucsize v poses0 poses1 i)
    (fun j s => i + 1 ≤ j ∧ s.clusters = s1.clusters ∧ s.l.length = n ∧
      (∀ k, lab s.l k =
        if i < k ∧ k < j ∧ lab s1.l k = 0 ∧
            closeTo K ismzdock cutoff strucsize poses0 poses1 i k = true
        then s1.clusters + 1 else lab s1.l k) ∧
      s.preds = s1.preds ++
        (if getclusters = true then
          ((List.range' (i + 1) (j - (i + 1))).filter (fun k =>
              decide (lab s1.l k = 0) &&
                closeTo K ismzdock cutoff strucsize poses0 poses1 i k)).filterMap
            (fun k => (v[k]?).map (annotate K (s1.clusters + 1)))
         else [])) n ?_ (n - (i + 1)) (i + 1) s1 (by omega) ?_
  · obtain ⟨s2, h2, -, hc, hlen, hlab, hp⟩ := key
    refine ⟨s2, h2, hc, hlen, ?_, hp⟩
    intro k
    rw [hlab k]
  · -- one iteration
    rintro j s hjn ⟨hij, hc, hlen, hlab, hp⟩
    obtain ⟨s', hs', hc', hl', hp'⟩ := innerBody_spec K ismzdock getclusters cutoff strucsize
      v poses0 poses1 i j s (by omega) (by omega) (hd j hjn)
    have hlabj : lab s.l j = lab s1.l j := by
      rw [hlab j]; simp
    refine ⟨s', hs', by omega, by rw [hc', hc], ?_, ?_, ?_⟩
    · rw [hl']; split <;> simp [hlen]
    · intro k
      rw [hl', hlabj]
      by_cases hcond : lab s1.l j = 0 ∧
          closeTo K ismzdock cutoff strucsize poses0 poses1 i j = true
      · rw [if_pos hcond, lab_set _ _ _ _ (by omega), hc]
        by_cases hkj : k = j
        · subst hkj
          rw [if_pos rfl, if_pos ⟨by omega, by omega, hcond.1, hcond.2⟩]
        · rw [if_neg hkj, hlab k]
          have : k < j + 1 ↔ k < j := by omega
          simp only [this]
      · rw [if_neg hcond, hlab k]
        by_cases hkj : k = j
        · subst hkj
          have h1 : ¬ (i < k ∧ k < k ∧ lab s1.l k = 0 ∧
              closeTo K ismzdock cutoff strucsize poses0 poses1 i k = true) := by
            rintro ⟨-, h, -⟩; omega
          have h2 : ¬ (i < k ∧ k < k + 1 ∧ lab s1.l k = 0 ∧
              closeTo K ismzdock cutoff strucsize poses0 poses1 i k = true) := by
            rintro ⟨-, -, h⟩; exact hcond h
          rw [if_neg h1, if_neg h2]
        · have : k < j + 1 ↔ k < j := by omega
          simp only [this]
    · have hr : List.range' (i + 1) (j + 1 - (i + 1)) =
          List.range' (i + 1) (j - (i + 1)) ++ [j] := by
        have e : j + 1 - (i + 1) = (j - (i + 1)) + 1 := by omega
        rw [e, List.range'_1_concat]
        congr 2; omega
      have hvj : v[j]? = some v[j] := List.getElem?_eq_getElem (by omega)
      rw [hp', hp, hlabj, hc, hr]
      cases getclusters
      · simp
      · by_cases h0 : lab s1.l j = 0
        · by_cases hcl : closeTo K ismzdock cutoff strucsize poses0 poses1 i j = true
          · simp [h0, hcl, hvj, List.filter_append, List.filterMap_append]
          · simp [h0, hcl, List.filter_append, List.filterMap_append]
        · simp [h0, List.filter_append, List.filterMap_append]
  · -- initially
    refine ⟨le_refl _, rfl, hl, ?_, ?_⟩
    · intro k
      have : ¬ (i < k ∧ k < i + 1 ∧ lab s1.l k = 0 ∧
          closeTo K ismzdock cutoff strucsize poses0 poses1 i k = true) := by
        rintro ⟨h1, h2, -⟩; omega
      rw [if_neg this]
    · simp

theorem OuterInv.lab_le {n i : Nat} {s : PruneState D} {seeds : List Nat}
    (inv : OuterInv K ismzdock getclusters cutoff strucsize v poses0 poses1 n i s seeds)
    (k : Nat) (hk : k < n) : lab s.l k ≤ seeds.length := by
  by_cases h0 : lab s.l k = 0
  · omega
  · obtain ⟨m, r, hm, hl, -⟩ := inv.nz k hk h0
    have := (List.getElem?_eq_some_iff.mp hm).1
    omega

theorem outer_step_skip (n i : Nat) (hi : i < n) (s : PruneState D) (seeds : List Nat)
    (inv : OuterInv K ismzdock getclusters cutoff strucsize v poses0 poses1 n i s seeds)
    (h0 : lab s.l i ≠ 0) :
    outerBody K ismzdock getclusters cutoff strucsize v poses0 poses1 n s i = some s ∧
      OuterInv K ismzdock getclusters cutoff strucsize v poses0 poses1 n (i + 1) s seeds := by
  have hil : i < s.l.length := by rw [inv.len]; exact hi
  have hli : s.l[i]? = some s.l[i] := List.getElem?_eq_getElem hil
  have hlab : lab s.l i = s.l[i] := lab_of_getElem? hli
  constructor
  · unfold outerBody
    rw [hli]
    simp [← hlab, h0]
  · refine ⟨inv.len, inv.ncl, inv.sorted, ?_, ?_, inv.nz, inv.seedlab, inv.out⟩
    · intro r hr
      have := inv.lt r hr
      omega
    · intro k hk hk0
      obtain ⟨h1, h2⟩ := inv.zero k hk hk0
      refine ⟨?_, h2⟩
      have : k ≠ i := by
        rintro rfl; exact h0 hk0
      omega

theorem outer_step_seed (n i : Nat) (hi : i < n) (hv : v.length = n)
    (hd : ∀ a b, a < n → b < n →
      (pairRmsd K ismzdock strucsize poses0 poses1 a b).isSome = true)
    (s : PruneState D) (seeds : List Nat)
    (inv : OuterInv K ismzdock getclusters cutoff strucsize v poses0 poses1 n i s seeds)
    (h0 : lab s.l i = 0) :
    ∃ s', outerBody K ismzdock getclusters cutoff strucsize v poses0 poses1 n s i = some s' ∧
      OuterInv K ismzdock getclusters cutoff strucsize v poses0 poses1 n (i + 1) s'
        (seeds ++ [i]) := by
  have hil : i < s.l.length := by rw [inv.len]; exact hi
  have hiv : i < v.length := by rw [hv]; exact hi
  have hli : s.l[i]? = some s.l[i] := List.getElem?_eq_getElem hil
  have hvi : v[i]? = some v[i] := List.getElem?_eq_getElem hiv
  have hlab : lab s.l i = s.l[i] := lab_of_getElem? hli
  have hli0 : s.l[i] = 0 := by rw [← hlab]; exact h0
  obtain ⟨s2, hs2, hc2, hlen2, hlab2, hp2⟩ := inner_spec K ismzdock getclusters cutoff
    strucsize v poses0 poses1 n i
    { s with
      l := s.l.set i (s.clusters + 1)
      assigned := s.assigned + 1
      preds := s.preds ++
        [if getclusters then { v[i] with score := K.ofInt (s.clusters + 1) } else v[i]] }
    (by simp [inv.len]) hv hi (fun j hj => hd i j hi hj)
  simp only at hc2 hlab2 hp2
  -- closed form of the new assignment vector
  have hL : ∀ k, lab s2.l k =
      if k = i then seeds.length + 1
      else if i < k ∧ k < n ∧ lab s.l k = 0 ∧
          closeTo K ismzdock cutoff strucsize poses0 poses1 i k = true
        then seeds.length + 1 else lab s.l k := by
    intro k
    rw [hlab2 k, lab_set _ _ _ _ hil, inv.ncl]
    by_cases hki : k = i
    · subst hki; simp
    · simp [hki]
  refine ⟨{ s2 with clusters := s2.clusters + 1 }, ?_, ?_⟩
  · unfold outerBody
    rw [hli]
    simp only [hli0, ne_eq, not_true_eq_false, if_false, hvi, hs2]
  · have hmemapp : ∀ r, r ∈ seeds ++ [i] → r ∈ seeds ∨ r = i := by
      intro r hr
      simpa using hr
    have hgetapp : ∀ (m r : Nat), (seeds ++ [i])[m]? = some r →
        (m < seeds.length ∧ seeds[m]? = some r) ∨ (m = seeds.length ∧ r = i) := by
      intro m r hm
      by_cases hlt : m < seeds.length
      · rw [List.getElem?_append_left hlt] at hm
        exact Or.inl ⟨hlt, hm⟩
      · rw [List.getElem?_append_right (by omega)] at hm
        have hm' := (List.getElem?_eq_some_iff.mp hm)
        obtain ⟨hlen, hval⟩ := hm'
        simp at hlen
        have hz : m - seeds.length = 0 := by omega
        simp [hz] at hval
        exact Or.inr ⟨by omega, hval.symm⟩
    have hgetold : ∀ (m r : Nat), seeds[m]? = some r → (seeds ++ [i])[m]? = some r := by
      intro m r hm
      have := (List.getElem?_eq_some_iff.mp hm).1
      rw [List.getElem?_append_left this]; exact hm
    have hgetnew : (seeds ++ [i])[seeds.length]? = some i := by
      rw [List.getElem?_append_right (le_refl _)]; simp
    refine ⟨hlen2, ?_, ?_, ?_, ?_, ?_, ?_, ?_⟩
    · -- ncl
      simp [hc2, inv.ncl]
    · -- sorted
      rw [List.pairwise_append]
      refine ⟨inv.sorted, List.pairwise_singleton _ _, ?_⟩
      intro a ha b hb
      simp at hb
      subst hb
      exact inv.lt a ha
    · -- lt
      intro r hr
      rcases hmemapp r hr with h | h
      · have := inv.lt r h; omega
      · omega
    · -- zero
      intro k hk hk0
      simp only at hk0
      rw [hL k] at hk0
      by_cases hki : k = i
      · rw [if_pos hki] at hk0; omega
      · rw [if_neg hki] at hk0
        by_cases hcond : i < k ∧ k < n ∧ lab s.l k = 0 ∧
            closeTo K ismzdock cutoff strucsize poses0 poses1 i k = true
        · rw [if_pos hcond] at hk0; omega
        · rw [if_neg hcond] at hk0
          obtain ⟨h1, h2⟩ := inv.zero k hk hk0
          have hik : i < k := by omega
          refine ⟨by omega, ?_⟩
          intro r hr
          rcases hmemapp r hr with h | h
          · exact h2 r h
          · subst h
            by_contra hcl
            exact hcond ⟨hik, hk, hk0, by simpa using hcl⟩
    · -- nz
      intro k hk hknz
      simp only at hknz ⊢
      rw [hL k] at hknz ⊢
      by_cases hki : k = i
      · subst hki
        rw [if_pos rfl]
        refine ⟨seeds.length, k, hgetnew, rfl, Or.inl rfl, ?_⟩
        intro m' r' hm' hr'
        rcases hgetapp m' r' hr' with ⟨-, h⟩ | ⟨h, -⟩
        · exact (inv.zero k hk h0).2 r' (List.getElem?_mem h)
        · omega
      · rw [if_neg hki] at hknz ⊢
        by_cases hcond : i < k ∧ k < n ∧ lab s.l k = 0 ∧
            closeTo K ismzdock cutoff strucsize poses0 poses1 i k = true
        · rw [if_pos hcond]
          refine ⟨seeds.length, i, hgetnew, rfl, Or.inr ⟨hcond.1, hcond.2.2.2⟩, ?_⟩
          intro m' r' hm' hr'
          rcases hgetapp m' r' hr' with ⟨-, h⟩ | ⟨h, -⟩
          · exact (inv.zero k hk hcond.2.2.1).2 r' (List.getElem?_mem h)
          · omega
        · rw [if_neg hcond] at hknz ⊢
          obtain ⟨m, r, hm, hl, hor, hall⟩ := inv.nz k hk hknz
          refine ⟨m, r, hgetold m r hm, hl, hor, ?_⟩
          intro m' r' hm' hr'
          have hmlt := (List.getElem?_eq_some_iff.mp hm).1
          rcases hgetapp m' r' hr' with ⟨-, h⟩ | ⟨h, -⟩
          · exact hall m' r' hm' h
          · omega
    · -- seedlab
      intro m r hm
      simp only
      rw [hL r]
      rcases hgetapp m r hm with ⟨-, h⟩ | ⟨h1, h2⟩
      · have hri := inv.lt r (List.getElem?_mem h)
        have hne : r ≠ i := by omega
        have hcond : ¬ (i < r ∧ r < n ∧ lab s.l r = 0 ∧
            closeTo K ismzdock cutoff strucsize poses0 poses1 i r = true) := by
          rintro ⟨h', -⟩; omega
        rw [if_neg hne, if_neg hcond]
        exact inv.seedlab m r h
      · subst h2; rw [if_pos rfl, h1]
    · -- out
      simp only
      rw [hp2, inv.out]
      have hle : ∀ k, k < n → lab s.l k ≤ seeds.length := fun k hk =>
        inv.lab_le K ismzdock getclusters cutoff strucsize v poses0 poses1 k hk
      cases getclusters
      · simp [hvi]
      · have hA : ∀ m ∈ List.range seeds.length,
            ((List.range n).filter (fun k => lab s2.l k == m + 1)).filterMap
                (fun k => (v[k]?).map (annotate K (m + 1))) =
              ((List.range n).filter (fun k => lab s.l k == m + 1)).filterMap
                (fun k => (v[k]?).map (annotate K (m + 1))) := by
          intro m hm
          have hm' : m < seeds.length := List.mem_range.mp hm
          congr 1
          apply List.filter_congr
          intro k _
          rw [hL k]
          by_cases hki : k = i
          · subst hki
            rw [if_pos rfl, h0]
            have e1 : (seeds.length + 1 == m + 1) = false := by
              simp; omega
            have e2 : ((0 : Nat) == m + 1) = false := by simp
            rw [e1, e2]
          · rw [if_neg hki]
            by_cases hcond : i < k ∧ k < n ∧ lab s.l k = 0 ∧
                closeTo K ismzdock cutoff strucsize poses0 poses1 i k = true
            · rw [if_pos hcond, hcond.2.2.1]
              have e1 : (seeds.length + 1 == m + 1) = false := by
                simp; omega
              have e2 : ((0 : Nat) == m + 1) = false := by simp
              rw [e1, e2]
            · rw [if_neg hcond]
        have hsplit : List.range n =
            List.range' 0 i ++ i :: List.range' (i + 1) (n - (i + 1)) := by
          rw [List.range_eq_range', List.range'_eq_append_iff]
          refine ⟨i, by omega, rfl, ?_⟩
          have e3 : n - i = (n - (i + 1)) + 1 := by omega
          rw [e3, List.range'_succ, Nat.zero_add]
        have hB : (List.range n).filter (fun k => lab s2.l k == seeds.length + 1) =
            i :: (List.range' (i + 1) (n - (i + 1))).filter (fun k =>
              decide (lab (s.l.set i (s.clusters + 1)) k = 0) &&
                closeTo K ismzdock cutoff strucsize poses0 poses1 i k) := by
          rw [hsplit, List.filter_append]
          have h1 : (List.range' 0 i).filter (fun k => lab s2.l k == seeds.length + 1) = [] := by
            rw [List.filter_eq_nil_iff]
            intro k hk
            have hki : k < i := by
              have := List.mem_range'_1.mp hk; omega
            rw [hL k]
            have hne : k ≠ i := by omega
            have hcond : ¬ (i < k ∧ k < n ∧ lab s.l k = 0 ∧
                closeTo K ismzdock cutoff strucsize poses0 poses1 i k = true) := by
              rintro ⟨h', -⟩; omega
            rw [if_neg hne, if_neg hcond]
            have := hle k (by omega)
            simp
            omega
          have h2 : (lab s2.l i == seeds.length + 1) = true := by
            rw [hL i]; simp
          rw [h1, List.nil_append, List.filter_cons, if_pos h2]
          congr 1
          apply List.filter_congr
          intro k hk
          have hik : i < k ∧ k < n := by
            have := List.mem_range'_1.mp hk; omega
          have hne : k ≠ i := by omega
          rw [hL k, if_neg hne, lab_set _ _ _ _ hil, if_neg hne]
          have hle' := hle k hik.2
          by_cases hk0 : lab s.l k = 0
          · by_cases hcl : closeTo K ismzdock cutoff strucsize poses0 poses1 i k = true
            · simp [hk0, hcl, hik.1, hik.2]
            · simp [hk0, hcl]
          · have hcond : ¬ (i < k ∧ k < n ∧ lab s.l k = 0 ∧
                closeTo K ismzdock cutoff strucsize poses0 poses1 i k = true) := by
              rintro ⟨-, -, h', -⟩; exact hk0 h'
            rw [if_neg hcond]
            simp [hk0]
            omega
        rw [List.length_append, List.length_singleton, List.range_succ, List.flatMap_append,
          List.flatMap_singleton, hB, List.flatMap_congr hA]
        simp [hvi, inv.ncl, annotate]

end Loops

section Master

variable {M D : Type} [LT D] [DecidableRel (fun a b : D => a < b)] (K : Numerics M D) (ismzdock getclusters : Bool)
  (cutoff : D) (pdb : M) (v : List (Prediction D))

theorem dist_eq (i j : Nat) (hi : i < v.length) (hj : j < v.length) :
    dist K ismzdock pdb v i j = some (predRmsd K ismzdock pdb v[i] v[j]) := by
  unfold dist pairRmsd mkPoses predRmsd
  cases ismzdock <;> simp [List.getElem?_map, List.getElem?_eq_getElem hi, List.getElem?_eq_getElem hj]

theorem dist_isSome (i j : Nat) (hi : i < v.length) (hj : j < v.length) :
    (dist K ismzdock pdb v i j).isSome = true := by
  rw [dist_eq K ismzdock pdb v i j hi hj]; rfl

theorem lab_replicate (n k : Nat) : lab (List.replicate n 0) k = 0 := by
  unfold lab
  rw [List.getElem?_replicate]
  split <;> rfl

/-- The outer loop of `prune` runs to completion and establishes the invariant
at `n`. -/
theorem prune_master :
    ∃ s seeds,
      prune K ismzdock getclusters cutoff pdb v =
        some { predictions := s.preds, clusters_ := s.l, strucsize_ := K.cols pdb,
               nclusters_ := s.clusters } ∧
      OuterInv K ismzdock getclusters cutoff (K.cols pdb) v
        (mkPoses K ismzdock pdb v).1 (mkPoses K ismzdock pdb v).2 v.length v.length s seeds := by
  have key := forLoop_inv
    (outerBody K ismzdock getclusters cutoff (K.cols pdb) v
      (mkPoses K ismzdock pdb v).1 (mkPoses K ismzdock pdb v).2 v.length)
    (fun i s => ∃ seeds, OuterInv K ismzdock getclusters cutoff (K.cols pdb) v
        (mkPoses K ismzdock pdb v).1 (mkPoses K ismzdock pdb v).2 v.length i s seeds)
    v.length ?_ v.length 0
    { preds := [], l := List.replicate v.length 0, clusters := 0, assigned := 0,
      min := K.dblMax } (by omega) ?_
  · obtain ⟨s, hs, seeds, inv⟩ := key
    refine ⟨s, seeds, ?_, inv⟩
    unfold prune
    simp only [hs]
  · rintro i s hi ⟨seeds, inv⟩
    by_cases h0 : lab s.l i = 0
    · obtain ⟨s', hs', inv'⟩ := outer_step_seed K ismzdock getclusters cutoff (K.cols pdb) v
        (mkPoses K ismzdock pdb v).1 (mkPoses K ismzdock pdb v).2 v.length i hi rfl
        (fun a b ha hb => dist_isSome K ismzdock pdb v a b ha hb) s seeds inv h0
      exact ⟨s', hs', _, inv'⟩
    · obtain ⟨hs', inv'⟩ := outer_step_skip K ismzdock getclusters cutoff (K.cols pdb) v
        (mkPoses K ismzdock pdb v).1 (mkPoses K ismzdock pdb v).2 v.length i hi s seeds inv h0
      exact ⟨s, hs', _, inv'⟩
  · refine ⟨[], ?_⟩
    refine ⟨by simp, rfl, List.Pairwise.nil, by simp, ?_, ?_, by simp, by simp⟩
    · intro k _ _
      exact ⟨Nat.zero_le _, by simp⟩
    · intro k _ h
      exact absurd (lab_replicate _ _) h

end Master

/-! ## Consequences of the invariant at the end of the outer loop -/

theorem sorted_filter_range_eq (seeds : List Nat) (n : Nat) (p : Nat → Bool)
    (hs : seeds.Pairwise (· < ·)) (hlt : ∀ r ∈ seeds, r < n)
    (hp : ∀ k, k < n → (p k = true ↔ k ∈ seeds)) :
    (List.range n).filter p = seeds := by
  apply List.eq_of_perm_of_sorted (r := (· < ·))
  · rw [List.perm_ext_iff_of_nodup ((List.nodup_range n).filter p)
      (List.Sorted.nodup (r := (· < ·)) hs)]
    intro a
    rw [List.mem_filter, List.mem_range]
    constructor
    · rintro ⟨h1, h2⟩; exact (hp a h1).mp h2
    · intro h; exact ⟨hlt a h, (hp a (hlt a h)).mpr h⟩
  · exact (List.pairwise_lt_range n).filter p
  · exact hs

theorem sorted_index_lt {seeds : List Nat} (hs : seeds.Pairwise (· < ·)) {a b x y : Nat}
    (ha : seeds[a]? = some x) (hb : seeds[b]? = some y) (hab : a < b) : x < y := by
  obtain ⟨ha1, ha2⟩ := List.getElem?_eq_some_iff.mp ha
  obtain ⟨hb1, hb2⟩ := List.getElem?_eq_some_iff.mp hb
  have := (List.pairwise_iff_getElem.mp hs) a b ha1 hb1 hab
  rw [ha2, hb2] at this
  exact this

theorem isRepresentative_iff (l : List Nat) (k : Nat) :
    isRepresentative l k = true ↔ k < l.length ∧ ∀ k', k' < k → lab l k' ≠ lab l k := by
  unfold isRepresentative
  simp [List.all_eq_true, List.mem_range]

section Final

variable {M D : Type} [LT D] [DecidableRel (fun a b : D => a < b)] {K : Numerics M D} {ismzdock getclusters : Bool}
  {cutoff strucsize : D} {v : List (Prediction D)} {poses0 poses1 : List M}
  {n : Nat} {s : PruneState D} {seeds : List Nat}

theorem OuterInv.fin_pos
    (inv : OuterInv K ismzdock getclusters cutoff strucsize v poses0 poses1 n n s seeds)
    (k : Nat) (hk : k < n) : lab s.l k ≠ 0 := by
  intro h0
  have := (inv.zero k hk h0).1
  omega

theorem OuterInv.fin_rep
    (inv : OuterInv K ismzdock getclusters cutoff strucsize v poses0 poses1 n n s seeds)
    (k : Nat) (hk : k < n) : isRepresentative s.l k = true ↔ k ∈ seeds := by
  rw [isRepresentative_iff]
  constructor
  · rintro ⟨-, hfirst⟩
    obtain ⟨m, r, hm, hl, hor, -⟩ := inv.nz k hk (inv.fin_pos k hk)
    rcases hor with h | ⟨h, -⟩
    · subst h; exact List.getElem?_mem hm
    · exfalso
      apply hfirst r h
      rw [inv.seedlab m r hm, hl]
  · intro hmem
    refine ⟨by rw [inv.len]; exact hk, ?_⟩
    obtain ⟨m, hm⟩ := List.getElem?_of_mem hmem
    intro k' hk' heq
    obtain ⟨m', r', hm', hl', hor', -⟩ := inv.nz k' (by omega) (inv.fin_pos k' (by omega))
    rw [inv.seedlab m k hm, hl'] at heq
    have hmm : m' = m := by omega
    subst hmm
    rw [hm] at hm'
    have : k = r' := by simpa using hm'
    subst this
    rcases hor' with h | ⟨h, -⟩ <;> omega

theorem OuterInv.representatives_eq
    (inv : OuterInv K ismzdock getclusters cutoff strucsize v poses0 poses1 n n s seeds) :
    representatives s.l = seeds := by
  unfold representatives
  rw [inv.len]
  exact sorted_filter_range_eq seeds n _ inv.sorted inv.lt (fun k hk => inv.fin_rep k hk)

theorem map_some_filterMap {α β : Type} (f : α → Option β) (xs : List α)
    (h : ∀ x ∈ xs, (f x).isSome = true) : (xs.filterMap f).map some = xs.map f := by
  induction xs with
  | nil => rfl
  | cons x xs ih =>
    obtain ⟨y, hy⟩ := Option.isSome_iff_exists.mp (h x (List.mem_cons_self _ _))
    have ih' := ih (fun z hz => h z (List.mem_cons_of_mem _ hz))
    simp [List.filterMap_cons, hy, ih']

theorem of_map_some_perm {β : Type} {xs ys : List β}
    (h : List.Perm (xs.map some) (ys.map some)) : List.Perm xs ys := by
  have := h.filterMap id
  simpa [List.filterMap_map] using this

theorem mem_clusterOrder {l : List Nat} {c k : Nat} (h : k ∈ clusterOrder l c) :
    k < l.length ∧ 1 ≤ lab l k ∧ lab l k ≤ c := by
  unfold clusterOrder at h
  rw [List.mem_flatMap] at h
  obtain ⟨m, hm, hk⟩ := h
  rw [List.mem_filter, List.mem_range] at hk
  have hm' := List.mem_range.mp hm
  have : lab l k = m + 1 := by simpa using hk.2
  exact ⟨hk.1, by omega, by omega⟩

theorem clusterOrder_perm (l : List Nat) (c : Nat)
    (h : ∀ k, k < l.length → 1 ≤ lab l k ∧ lab l k ≤ c) :
    List.Perm (clusterOrder l c) (List.range l.length) := by
  have gen : ∀ c', List.Perm (clusterOrder l c')
      ((List.range l.length).filter (fun k => decide (1 ≤ lab l k) && decide (lab l k ≤ c'))) := by
    intro c'
    induction c' with
    | zero =>
      have : (List.range l.length).filter
          (fun k => decide (1 ≤ lab l k) && decide (lab l k ≤ 0)) = [] := by
        rw [List.filter_eq_nil_iff]
        intro a _
        simp
        omega
      rw [this]
      simp [clusterOrder]
    | succ c' ih =>
      have e : clusterOrder l (c' + 1) = clusterOrder l c' ++
          (List.range l.length).filter (fun k => lab l k == c' + 1) := by
        simp [clusterOrder, List.range_succ, List.flatMap_append]
      rw [e]
      have hsplit := List.filter_append_perm (fun k => decide (lab l k ≤ c'))
        ((List.range l.length).filter
          (fun k => decide (1 ≤ lab l k) && decide (lab l k ≤ c' + 1)))
      rw [List.filter_filter, List.filter_filter] at hsplit
      have e1 : (List.range l.length).filter (fun k => decide (lab l k ≤ c') &&
            (decide (1 ≤ lab l k) && decide (lab l k ≤ c' + 1))) =
          (List.range l.length).filter
            (fun k => decide (1 ≤ lab l k) && decide (lab l k ≤ c')) := by
        apply List.filter_congr
        intro k _
        by_cases h1 : 1 ≤ lab l k <;> by_cases h2 : lab l k ≤ c' <;> simp [h1, h2]
        omega
      have e2 : (List.range l.length).filter (fun k => (!decide (lab l k ≤ c')) &&
            (decide (1 ≤ lab l k) && decide (lab l k ≤ c' + 1))) =
          (List.range l.length).filter (fun k => lab l k == c' + 1) := by
        apply List.filter_congr
        intro k _
        by_cases h3 : lab l k = c' + 1
        · simp [h3]
        · have hb : (lab l k == c' + 1) = false := by simpa using h3
          rw [hb]
          by_cases h1 : 1 ≤ lab l k <;> by_cases h2 : lab l k ≤ c' <;> simp [h1, h2]
          all_goals omega
      rw [e1, e2] at hsplit
      exact (List.Perm.append ih (List.Perm.refl _)).trans hsplit
  have hall : (List.range l.length).filter
      (fun k => decide (1 ≤ lab l k) && decide (lab l k ≤ c)) = List.range l.length := by
    rw [List.filter_eq_self]
    intro k hk
    have := h k (List.mem_range.mp hk)
    simp [this.1, this.2]
  have := gen c
  rwa [hall] at this

end Final

section Final2

variable {M D : Type} [LT D] [DecidableRel (fun a b : D => a < b)] {K : Numerics M D} {ismzdock : Bool}
  {cutoff strucsize : D} {v : List (Prediction D)} {poses0 poses1 : List M}
  {n : Nat} {s : PruneState D} {seeds : List Nat}

theorem OuterInv.fin_range
    {getclusters : Bool}
    (inv : OuterInv K ismzdock getclusters cutoff strucsize v poses0 poses1 n n s seeds)
    (k : Nat) (hk : k < s.l.length) : 1 ≤ lab s.l k ∧ lab s.l k ≤ s.clusters := by
  rw [inv.len] at hk
  have h1 := inv.fin_pos k hk
  have h2 := inv.lab_le K ismzdock getclusters cutoff strucsize v poses0 poses1 k hk
  rw [inv.ncl]
  omega

theorem OuterInv.out_annotate
    (inv : OuterInv K ismzdock true cutoff strucsize v poses0 poses1 n n s seeds)
    (hv : v.length = n) :
    s.preds.map some = (clusterOrder s.l s.clusters).map
      (fun k => (v[k]?).map (annotate K (lab s.l k))) := by
  have hout := inv.out
  simp only [if_true] at hout
  have e : s.preds = (clusterOrder s.l s.clusters).filterMap
      (fun k => (v[k]?).map (annotate K (lab s.l k))) := by
    rw [hout, clusterOrder, List.filterMap_flatMap, inv.ncl, inv.len]
    apply List.flatMap_congr
    intro m _
    apply List.filterMap_congr
    intro k hk
    rw [List.mem_filter] at hk
    have : lab s.l k = m + 1 := by simpa using hk.2
    rw [this]
  rw [e]
  apply map_some_filterMap
  intro k hk
  have hk' := (mem_clusterOrder hk).1
  rw [inv.len, ← hv] at hk'
  simp [List.getElem?_eq_getElem hk']

theorem OuterInv.out_filter
    (inv : OuterInv K ismzdock false cutoff strucsize v poses0 poses1 n n s seeds)
    (hv : v.length = n) :
    s.preds.map some = seeds.map (fun k => v[k]?) := by
  have hout := inv.out
  simp only [Bool.false_eq_true, if_false] at hout
  rw [hout]
  apply map_some_filterMap
  intro k hk
  have hk' := inv.lt k hk
  rw [← hv] at hk'
  simp [List.getElem?_eq_getElem hk']

theorem OuterInv.seeds_length_le {getclusters : Bool}
    (inv : OuterInv K ismzdock getclusters cutoff strucsize v poses0 poses1 n n s seeds) :
    seeds.length ≤ n := by
  have h := sorted_filter_range_eq seeds n (fun k => decide (k ∈ seeds)) inv.sorted inv.lt
    (fun k _ => by simp)
  have h2 := List.length_filter_le (fun k => decide (k ∈ seeds)) (List.range n)
  rw [h, List.length_range] at h2
  exact h2

theorem OuterInv.getElem?_eq {getclusters : Bool}
    (inv : OuterInv K ismzdock getclusters cutoff strucsize v poses0 poses1 n n s seeds)
    (k : Nat) (hk : k < n) : s.l[k]? = some (lab s.l k) := by
  have hk' : k < s.l.length := by rw [inv.len]; exact hk
  simp [lab, List.getElem?_eq_getElem hk']

end Final2

theorem indexOf_eq_of_first (l : List Nat) (c k : Nat) (hk : l[k]? = some c)
    (hfirst : ∀ k', k' < k → l[k']? ≠ some c) : l.indexOf c = k := by
  induction l generalizing k with
  | nil => simp at hk
  | cons x xs ih =>
    cases k with
    | zero =>
      have : x = c := by simpa using hk
      exact List.indexOf_cons_eq _ this
    | succ k =>
      have hx : x ≠ c := by
        have := hfirst 0 (Nat.succ_pos _)
        simpa using this
      rw [List.indexOf_cons_ne _ hx]
      congr 1
      apply ih
      · simpa using hk
      · intro k' hk'
        have := hfirst (k' + 1) (by omega)
        simpa using this

theorem zipWith_annotate_map_some {M D : Type} (K : Numerics M D) (v : List (Prediction D))
    (l : List Nat) (h : l.length = v.length) :
    (List.zipWith (fun p c => annotate K c p) v l).map some =
      (List.range l.length).map (fun k => (v[k]?).map (annotate K (lab l k))) := by
  apply List.ext_getElem?
  intro k
  rw [List.getElem?_map, List.getElem?_map, List.getElem?_zipWith]
  by_cases hk : k < l.length
  · have hkv : k < v.length := by omega
    rw [List.getElem?_range hk, List.getElem?_eq_getElem hk, List.getElem?_eq_getElem hkv]
    simp [lab, List.getElem?_eq_getElem hk, List.getElem?_eq_getElem hkv]
  · have h1 : l[k]? = none := List.getElem?_eq_none (by omega)
    have h2 : v[k]? = none := List.getElem?_eq_none (by omega)
    have h3 : (List.range l.length)[k]? = none :=
      List.getElem?_eq_none (by rw [List.length_range]; omega)
    simp [h1, h2, h3]

theorem closeTo_eq_true_iff {M D : Type} [LT D] [DecidableRel (fun a b : D => a < b)] (K : Numerics M D) (ismzdock : Bool)
    (cutoff : D) (pdb : M) (v : List (Prediction D)) (i j : Nat) :
    closeTo K ismzdock cutoff (K.cols pdb) (mkPoses K ismzdock pdb v).1
        (mkPoses K ismzdock pdb v).2 i j = true ↔
      ∃ d, dist K ismzdock pdb v i j = some d ∧ d < cutoff := by
  unfold closeTo dist
  cases h : pairRmsd K ismzdock (K.cols pdb) (mkPoses K ismzdock pdb v).1
      (mkPoses K ismzdock pdb v).2 i j with
  | none => simp
  | some r => simp

theorem closeTo_eq_false_iff {M D : Type} [LT D] [DecidableRel (fun a b : D => a < b)]
    (K : Numerics M D) (ismzdock : Bool)
    (cutoff : D) (pdb : M) (v : List (Prediction D)) (i j : Nat)
    (hi : i < v.length) (hj : j < v.length) :
    closeTo K ismzdock cutoff (K.cols pdb) (mkPoses K ismzdock pdb v).1
        (mkPoses K ismzdock pdb v).2 i j = false ↔
      ∃ d, dist K ismzdock pdb v i j = some d ∧ ¬ d < cutoff := by
  have hd := dist_eq K ismzdock pdb v i j hi hj
  unfold closeTo
  unfold dist at hd
  rw [hd]
  simp [dist, hd]

theorem range_map_getElem? {α : Type} (v : List α) :
    (List.range v.length).map (fun k => v[k]?) = v.map some := by
  apply List.ext_getElem?
  intro k
  rw [List.getElem?_map, List.getElem?_map]
  by_cases hk : k < v.length
  · rw [List.getElem?_range hk, List.getElem?_eq_getElem hk]
    simp [List.getElem?_eq_getElem hk]
  · have h1 : v[k]? = none := List.getElem?_eq_none (by omega)
    have h2 : (List.range v.length)[k]? = none :=
      List.getElem?_eq_none (by rw [List.length_range]; omega)
    simp [h1, h2]

theorem eq_range'_of_lab (l : List Nat) (n : Nat) (hlen : l.length = n)
    (h : ∀ k, k < n → lab l k = k + 1) : l = List.range' 1 n := by
  apply List.ext_getElem?
  intro k
  by_cases hk : k < n
  · have hk' : k < l.length := by omega
    have := h k hk
    simp only [lab, List.getElem?_eq_getElem hk', Option.getD_some] at this
    rw [List.getElem?_eq_getElem hk', this, List.getElem?_range' 1 1 hk]
    simp [Nat.add_comm]
  · rw [List.getElem?_eq_none (by omega), List.getElem?_eq_none (by simp; omega)]

section Far

variable {M D : Type} [LT D] [DecidableRel (fun a b : D => a < b)] (K : Numerics M D) (ismzdock getclusters : Bool)
  (cutoff : D) (pdb : M) (v : List (Prediction D))

/-- When no later prediction is within the cutoff of an earlier one, every
prediction opens its own cluster. -/
theorem prune_far
    (h : ∀ i j, i < j → j < v.length →
      ∀ d, dist K ismzdock pdb v i j = some d → ¬ d < cutoff) :
    ∃ r, prune K ismzdock getclusters cutoff pdb v = some r ∧
      r.nclusters_ = v.length ∧ r.clusters_ = List.range' 1 v.length ∧
      (getclusters = false → r.predictions = v) := by
  obtain ⟨s, seeds, hs, inv⟩ := prune_master K ismzdock getclusters cutoff pdb v
  have hmem : ∀ k, k < v.length → k ∈ seeds := by
    intro k hk
    obtain ⟨m, r, hm, -, hor, -⟩ := inv.nz k hk (inv.fin_pos k hk)
    rcases hor with e | ⟨hlt, hcl⟩
    · subst e; exact List.getElem?_mem hm
    · exfalso
      obtain ⟨d, hd, hdc⟩ := (closeTo_eq_true_iff K ismzdock cutoff pdb v r k).mp hcl
      exact h r k hlt hk d hd hdc
  have hseeds : seeds = List.range v.length := by
    rw [← sorted_filter_range_eq seeds v.length (fun _ => true) inv.sorted inv.lt
      (fun k hk => by simpa using hmem k hk)]
    simp
  have hlab : ∀ k, k < v.length → lab s.l k = k + 1 := by
    intro k hk
    apply inv.seedlab k k
    rw [hseeds]
    exact List.getElem?_range hk
  refine ⟨_, hs, ?_, ?_, ?_⟩
  · simp only
    rw [inv.ncl, hseeds, List.length_range]
  · exact eq_range'_of_lab _ _ inv.len hlab
  · intro hg
    subst hg
    have hout := inv.out_filter rfl
    rw [hseeds, range_map_getElem?] at hout
    exact List.map_injective_iff.mpr (Option.some_injective _) hout

end Far

/-! ## The claims -/

section Claims

variable {M D : Type} [LT D] [DecidableRel (fun a b : D => a < b)] (K : Numerics M D) (ismzdock getclusters : Bool)
  (cutoff : D) (pdb : M) (v : List (Prediction D))

/-- C1. Filter mode (`getclusters = false`): `prune` returns, and the prediction
list it leaves consists of exactly the cluster representatives (the predictions
that opened a cluster), each copied unchanged, in their original rank order;
the length of the list is the cluster count `nclusters_`. -/
theorem prune_filter_representatives :
    ∃ r, prune K ismzdock false cutoff pdb v = some r ∧
      r.predictions.map some = (representatives r.clusters_).map (fun k => v[k]?) ∧
      r.predictions.length = r.nclusters_ := by
  obtain ⟨s, seeds, hs, inv⟩ := prune_master K ismzdock false cutoff pdb v
  have hout := inv.out_filter rfl
  refine ⟨_, hs, ?_, ?_⟩
  · simp only
    rw [inv.representatives_eq]
    exact hout
  · have := congrArg List.length hout
    simp only [List.length_map] at this
    simp only [this, inv.ncl]

/-- C2. Annotate mode (`getclusters = true`): `prune` returns, the assignment
vector and the prediction list both have the length `n` of the input, and the
prediction list is a rearrangement of the input predictions, each with its
score replaced by the cluster id assigned to it (`clusters_` at its index) and
rotation and translation unchanged. -/
theorem prune_annotate_perm :
    ∃ r, prune K ismzdock true cutoff pdb v = some r ∧
      r.clusters_.length = v.length ∧ r.predictions.length = v.length ∧
      List.Perm r.predictions (List.zipWith (fun p c => annotate K c p) v r.clusters_) := by
  obtain ⟨s, seeds, hs, inv⟩ := prune_master K ismzdock true cutoff pdb v
  have hout := inv.out_annotate rfl
  have hperm : List.Perm s.preds (List.zipWith (fun p c => annotate K c p) v s.l) := by
    apply of_map_some_perm
    rw [hout, zipWith_annotate_map_some K v s.l inv.len]
    exact (clusterOrder_perm s.l s.clusters (fun k hk => inv.fin_range k hk)).map _
  refine ⟨_, hs, inv.len, ?_, hperm⟩
  have := hperm.length_eq
  simp only [List.length_zipWith, inv.len, min_self] at this
  exact this

/-- C3, as amended. Annotate mode lists the predictions cluster by cluster:
the clusters in increasing id order and, within a cluster, its members in their
original rank order (the representative first), each with its score replaced by
its cluster id. -/
theorem prune_annotate_cluster_order :
    ∃ r, prune K ismzdock true cutoff pdb v = some r ∧
      r.predictions.map some = (clusterOrder r.clusters_ r.nclusters_).map
        (fun k => (v[k]?).map (annotate K (lab r.clusters_ k))) := by
  obtain ⟨s, seeds, hs, inv⟩ := prune_master K ismzdock true cutoff pdb v
  exact ⟨_, hs, inv.out_annotate rfl⟩

/-- C4. After `prune` on `n` predictions every entry of `clusters_` lies between
1 and `nclusters_`, every id in that range is used, for ids `a < b` the first
prediction with id `a` precedes the first prediction with id `b`, and
`nclusters_ ≤ n`. -/
theorem prune_cluster_ids :
    ∃ r, prune K ismzdock getclusters cutoff pdb v = some r ∧
      r.clusters_.length = v.length ∧
      (∀ c ∈ r.clusters_, 1 ≤ c ∧ c ≤ r.nclusters_) ∧
      (∀ c, 1 ≤ c → c ≤ r.nclusters_ → c ∈ r.clusters_) ∧
      (∀ a b, 1 ≤ a → a < b → b ≤ r.nclusters_ →
        r.clusters_.indexOf a < r.clusters_.indexOf b) ∧
      r.nclusters_ ≤ v.length := by
  obtain ⟨s, seeds, hs, inv⟩ := prune_master K ismzdock getclusters cutoff pdb v
  have hidx : ∀ m r, seeds[m]? = some r → s.l.indexOf (m + 1) = r := by
    intro m r hm
    have hr : r < v.length := inv.lt r (List.getElem?_mem hm)
    apply indexOf_eq_of_first
    · rw [inv.getElem?_eq r hr, inv.seedlab m r hm]
    · intro k' hk' h
      have hrep := (inv.fin_rep r hr).mpr (List.getElem?_mem hm)
      have := ((isRepresentative_iff _ _).mp hrep).2 k' hk'
      rw [inv.seedlab m r hm] at this
      rw [inv.getElem?_eq k' (by omega)] at h
      exact this (by simpa using h)
  refine ⟨_, hs, inv.len, ?_, ?_, ?_, ?_⟩
  · intro c hc
    obtain ⟨k, hk⟩ := List.getElem?_of_mem hc
    have hk' := (List.getElem?_eq_some_iff.mp hk).1
    have := inv.fin_range k hk'
    rw [lab_of_getElem? hk] at this
    exact this
  · intro c h1 h2
    simp only at h2
    rw [inv.ncl] at h2
    have hm : c - 1 < seeds.length := by omega
    have hget : seeds[c - 1]? = some seeds[c - 1] := List.getElem?_eq_getElem hm
    have hr := inv.lt _ (List.getElem?_mem hget)
    have := inv.getElem?_eq _ hr
    rw [inv.seedlab _ _ hget] at this
    have e : c - 1 + 1 = c := by omega
    rw [e] at this
    exact List.getElem?_mem this
  · intro a b h1 h2 h3
    simp only at h3 ⊢
    rw [inv.ncl] at h3
    have hma : a - 1 < seeds.length := by omega
    have hmb : b - 1 < seeds.length := by omega
    have hga : seeds[a - 1]? = some seeds[a - 1] := List.getElem?_eq_getElem hma
    have hgb : seeds[b - 1]? = some seeds[b - 1] := List.getElem?_eq_getElem hmb
    have ea := hidx _ _ hga
    have eb := hidx _ _ hgb
    have e1 : a - 1 + 1 = a := by omega
    have e2 : b - 1 + 1 = b := by omega
    rw [e1] at ea
    rw [e2] at eb
    rw [ea, eb]
    exact sorted_index_lt inv.sorted hga hgb (by omega)
  · simp only
    rw [inv.ncl]
    exact inv.seeds_length_le

/-- C5, as amended. For every non-empty prediction set and every cutoff strictly
greater than every pairwise distance that `prune` computes (so strictly greater
than the maximum pairwise RMSD), `prune` yields exactly one cluster:
`nclusters_ = 1` and every prediction has cluster id 1. -/
theorem prune_one_cluster (hne : v ≠ [])
    (h : ∀ i j, i < j → j < v.length → ∀ d, dist K ismzdock pdb v i j = some d → d < cutoff) :
    ∃ r, prune K ismzdock getclusters cutoff pdb v = some r ∧
      r.nclusters_ = 1 ∧ r.clusters_ = List.replicate v.length 1 := by
  obtain ⟨s, seeds, hs, inv⟩ := prune_master K ismzdock getclusters cutoff pdb v
  have hn : 0 < v.length := List.length_pos.mpr hne
  have hclose : ∀ i j, i < j → j < v.length →
      closeTo K ismzdock cutoff (K.cols pdb) (mkPoses K ismzdock pdb v).1
        (mkPoses K ismzdock pdb v).2 i j = true := by
    intro i j hij hj
    rw [closeTo_eq_true_iff]
    have hd := dist_eq K ismzdock pdb v i j (by omega) hj
    exact ⟨_, hd, h i j hij hj _ hd⟩
  have hlab1 : ∀ k, k < v.length → lab s.l k = 1 := by
    intro k hk
    obtain ⟨m, r, hm, hl, hor, hall⟩ := inv.nz k hk (inv.fin_pos k hk)
    have hmlen := (List.getElem?_eq_some_iff.mp hm).1
    by_cases hm0 : m = 0
    · rw [hl, hm0]
    · exfalso
      have h0len : 0 < seeds.length := by omega
      have hg0 : seeds[0]? = some seeds[0] := List.getElem?_eq_getElem h0len
      have hfar := hall 0 _ (by omega) hg0
      have hlt := sorted_index_lt inv.sorted hg0 hm (by omega)
      have hrk : r ≤ k := by
        rcases hor with e | ⟨e, -⟩ <;> omega
      rw [hclose _ k (by omega) hk] at hfar
      exact Bool.noConfusion hfar
  have hlen1 : seeds.length = 1 := by
    obtain ⟨m, r, hm, -, -, -⟩ := inv.nz 0 hn (inv.fin_pos 0 hn)
    have hmlen := (List.getElem?_eq_some_iff.mp hm).1
    by_contra hne1
    have h2 : 1 < seeds.length := by omega
    have hg1 : seeds[1]? = some seeds[1] := List.getElem?_eq_getElem h2
    have := inv.seedlab 1 _ hg1
    rw [hlab1 _ (inv.lt _ (List.getElem?_mem hg1))] at this
    omega
  refine ⟨_, hs, ?_, ?_⟩
  · simp only
    rw [inv.ncl, hlen1]
  · simp only
    rw [List.eq_replicate_iff]
    refine ⟨inv.len, ?_⟩
    intro b hb
    obtain ⟨k, hk⟩ := List.getElem?_of_mem hb
    have hk' := (List.getElem?_eq_some_iff.mp hk).1
    rw [inv.len] at hk'
    rw [← lab_of_getElem? hk]
    exact hlab1 k hk'

/-- C7. Filter-mode `prune` is idempotent, for the ZDOCK and for the M-ZDOCK
distance: run in filter mode on the filter-mode output of a previous run with
the same cutoff and the same structure, it returns that list unchanged, with as
many clusters as predictions, every prediction being its own singleton
cluster. -/
theorem prune_filter_idempotent :
    ∃ r1, prune K ismzdock false cutoff pdb v = some r1 ∧
      ∃ r2, prune K ismzdock false cutoff pdb r1.predictions = some r2 ∧
        r2.predictions = r1.predictions ∧
        r2.nclusters_ = r1.predictions.length ∧
        r2.clusters_ = List.range' 1 r1.predictions.length := by
  obtain ⟨s, seeds, hs, inv⟩ := prune_master K ismzdock false cutoff pdb v
  have hout := inv.out_filter rfl
  have hlen : s.preds.length = seeds.length := by
    have := congrArg List.length hout
    simpa using this
  -- the `a`-th kept prediction is the prediction at index `seeds[a]`
  have hget : ∀ a (ha : a < s.preds.length),
      ∃ r, seeds[a]? = some r ∧ ∃ hr : r < v.length, v[r] = s.preds[a] := by
    intro a ha
    have hs' : a < seeds.length := by omega
    have e := congrArg (fun l => l[a]?) hout
    simp only [List.getElem?_map, List.getElem?_eq_getElem ha,
      List.getElem?_eq_getElem hs', Option.map_some'] at e
    have hr : seeds[a] < v.length := inv.lt _ (List.getElem_mem hs')
    refine ⟨seeds[a], List.getElem?_eq_getElem hs', hr, ?_⟩
    rw [List.getElem?_eq_getElem hr] at e
    exact (Option.some.inj (Option.some.inj e)).symm
  have hfar : ∀ i j, i < j → j < s.preds.length →
      ∀ d, dist K ismzdock pdb s.preds i j = some d → ¬ d < cutoff := by
    intro i j hij hj d hd
    obtain ⟨ri, hri, hriv, hvi⟩ := hget i (by omega)
    obtain ⟨rj, hrj, hrjv, hvj⟩ := hget j hj
    rw [dist_eq K ismzdock pdb s.preds i j (by omega) hj, ← hvi, ← hvj,
      ← dist_eq K ismzdock pdb v ri rj hriv hrjv] at hd
    obtain ⟨m, r, hm, hl, -, hall⟩ := inv.nz rj hrjv (inv.fin_pos rj hrjv)
    rw [inv.seedlab j rj hrj] at hl
    have hmj : m = j := by omega
    subst hmj
    have hcl := hall i ri hij hri
    obtain ⟨d', hd', hle⟩ := (closeTo_eq_false_iff K ismzdock cutoff pdb v ri rj hriv hrjv).mp hcl
    rw [hd] at hd'
    cases hd'
    exact hle
  obtain ⟨r2, hr2, h1, h2, h3⟩ := prune_far K ismzdock false cutoff pdb s.preds hfar
  exact ⟨_, hs, r2, hr2, h3 rfl, h1, h2⟩

/-- C10, as amended. Greedy seed characterisation, with `d(i, j)` the distance
`prune` computes between seed `i` and the later prediction `j`: a prediction `j`
is a cluster representative if and only if the test `d(s, j) < cutoff` fails
for every representative `s` ranked before `j`; otherwise `j` carries the
cluster id of the lowest-ranked representative `s < j` with `d(s, j) < cutoff`,
so every non-representative is strictly within the cutoff of its own cluster's
seed. No order law is assumed of the comparison, so the statement covers NaN
distances and a NaN cutoff. -/
theorem prune_greedy_seeds :
    ∃ r, prune K ismzdock getclusters cutoff pdb v = some r ∧
      ∀ j, j < v.length →
        (isRepresentative r.clusters_ j = true ↔
          ∀ s, s < j → isRepresentative r.clusters_ s = true →
            ∃ d, dist K ismzdock pdb v s j = some d ∧ ¬ d < cutoff) ∧
        (isRepresentative r.clusters_ j = false →
          ∃ s, s < j ∧ isRepresentative r.clusters_ s = true ∧
            (∃ d, dist K ismzdock pdb v s j = some d ∧ d < cutoff) ∧
            lab r.clusters_ j = lab r.clusters_ s ∧
            ∀ s', s' < s → isRepresentative r.clusters_ s' = true →
              ∃ d, dist K ismzdock pdb v s' j = some d ∧ ¬ d < cutoff) := by
  obtain ⟨s, seeds, hs, inv⟩ := prune_master K ismzdock getclusters cutoff pdb v
  refine ⟨_, hs, ?_⟩
  intro j hj
  simp only
  -- representatives ranked before the seed of `j` are beyond the cutoff
  have hbefore : ∀ m r, seeds[m]? = some r → lab s.l j = m + 1 →
      ∀ s', s' < r → isRepresentative s.l s' = true →
        ∃ d, dist K ismzdock pdb v s' j = some d ∧ ¬ d < cutoff := by
    intro m r hm hl s' hs' hrep
    have hs'n : s' < v.length := by
      have := inv.lt r (List.getElem?_mem hm); omega
    obtain ⟨m', hm'⟩ := List.getElem?_of_mem ((inv.fin_rep s' hs'n).mp hrep)
    have hmm : m' < m := by
      by_contra hge
      rcases Nat.lt_or_ge m m' with h | h
      · have := sorted_index_lt inv.sorted hm hm' h; omega
      · have : m' = m := by omega
        subst this
        rw [hm] at hm'
        have : r = s' := by simpa using hm'
        omega
    obtain ⟨m0, r0, hm0, hl0, -, hall⟩ := inv.nz j hj (inv.fin_pos j hj)
    have : m0 = m := by omega
    subst this
    exact (closeTo_eq_false_iff K ismzdock cutoff pdb v s' j hs'n hj).mp (hall m' s' hmm hm')
  constructor
  · constructor
    · intro hrep s' hs' hrep'
      obtain ⟨m, hm⟩ := List.getElem?_of_mem ((inv.fin_rep j hj).mp hrep)
      exact hbefore m j hm (inv.seedlab m j hm) s' hs' hrep'
    · intro hall
      rw [inv.fin_rep j hj]
      obtain ⟨m, r, hm, hl, hor, -⟩ := inv.nz j hj (inv.fin_pos j hj)
      rcases hor with e | ⟨hlt, hcl⟩
      · subst e; exact List.getElem?_mem hm
      · exfalso
        have hrn : r < v.length := by omega
        obtain ⟨d, hd, hle⟩ := hall r hlt ((inv.fin_rep r hrn).mpr (List.getElem?_mem hm))
        obtain ⟨d', hd', hlt'⟩ := (closeTo_eq_true_iff K ismzdock cutoff pdb v r j).mp hcl
        rw [hd] at hd'
        cases hd'
        exact hle hlt'
  · intro hnrep
    obtain ⟨m, r, hm, hl, hor, -⟩ := inv.nz j hj (inv.fin_pos j hj)
    have hrmem : r ∈ seeds := List.getElem?_mem hm
    rcases hor with e | ⟨hlt, hcl⟩
    · subst e
      rw [(inv.fin_rep r hj).mpr hrmem] at hnrep
      exact Bool.noConfusion hnrep
    · have hrn : r < v.length := by omega
      refine ⟨r, hlt, (inv.fin_rep r hrn).mpr hrmem,
        (closeTo_eq_true_iff K ismzdock cutoff pdb v r j).mp hcl, ?_, hbefore m r hm hl⟩
      rw [hl, inv.seedlab m r hm]

end Claims

/-- C6, as amended. For every prediction set of `n` predictions and every cutoff
that no pairwise distance computed by `prune` falls below (zero distances
included), `prune` yields exactly `n` clusters, each a singleton:
`clusters_[i] = i + 1` for every `i`. -/
theorem prune_all_singletons {M D : Type} [LinearOrder D] (K : Numerics M D)
    (ismzdock getclusters : Bool) (cutoff : D) (pdb : M) (v : List (Prediction D))
    (h : ∀ i j, i < j → j < v.length → ∀ d, dist K ismzdock pdb v i j = some d → cutoff ≤ d) :
    ∃ r, prune K ismzdock getclusters cutoff pdb v = some r ∧
      r.nclusters_ = v.length ∧ r.clusters_ = List.range' 1 v.length := by
  obtain ⟨r, hr, h1, h2, -⟩ := prune_far K ismzdock getclusters cutoff pdb v
    (fun i j hij hj d hd => not_lt.mpr (h i j hij hj d hd))
  exact ⟨r, hr, h1, h2⟩

theorem stdMin_comm {D : Type} [LinearOrder D] (a b : D) : stdMin a b = stdMin b a := by
  unfold stdMin
  by_cases h1 : b < a
  · rw [if_pos h1, if_neg (not_lt.mpr (le_of_lt h1))]
  · by_cases h2 : a < b
    · rw [if_neg h1, if_pos h2]
    · rw [if_neg h1, if_neg h2]
      exact le_antisymm (not_lt.mp h1) (not_lt.mp h2)

theorem circularize_eq (boxsize t : Int) :
    circularize boxsize t =
      if boxsize ≤ 2 * t + Int.tmod boxsize 2 then t - boxsize else t := by
  unfold circularize
  have h := Int.tmod_add_tdiv boxsize 2
  by_cases hc : t ≥ Int.tdiv boxsize 2
  · rw [if_pos hc, if_pos (by omega)]
  · rw [if_neg hc, if_neg (by omega)]

/-- C8, as amended. For every box size `N`, grid index triple `t` and spacing,
`boxTranslation` with `reverse = false` produces on each axis the displacement
`spacing * (t - N)` exactly when `t ≥ N / 2` in the truncating integer division
of C++, that is when `2 * t + N % 2 ≥ N` with the C++ remainder (for even `N`
this is `2 * t ≥ N`; for odd positive `N` the index `t = (N - 1) / 2` is wrapped
as well), and `spacing * t` otherwise; with `reverse = true` the displacement is
the negation of that value. -/
theorem boxTranslation_circularized {D : Type} [Ring D] (spacing : D) (boxsize : Int)
    (t : Int × Int × Int) :
    boxTranslation spacing boxsize t false =
      (spacing * ((if boxsize ≤ 2 * t.1 + Int.tmod boxsize 2
          then t.1 - boxsize else t.1 : Int) : D),
       spacing * ((if boxsize ≤ 2 * t.2.1 + Int.tmod boxsize 2
          then t.2.1 - boxsize else t.2.1 : Int) : D),
       spacing * ((if boxsize ≤ 2 * t.2.2 + Int.tmod boxsize 2
          then t.2.2 - boxsize else t.2.2 : Int) : D)) ∧
    boxTranslation spacing boxsize t true =
      (-(spacing * ((if boxsize ≤ 2 * t.1 + Int.tmod boxsize 2
          then t.1 - boxsize else t.1 : Int) : D)),
       -(spacing * ((if boxsize ≤ 2 * t.2.1 + Int.tmod boxsize 2
          then t.2.1 - boxsize else t.2.1 : Int) : D)),
       -(spacing * ((if boxsize ≤ 2 * t.2.2 + Int.tmod boxsize 2
          then t.2.2 - boxsize else t.2.2 : Int) : D))) := by
  unfold boxTranslation
  simp only [circularize_eq, Bool.false_eq_true, if_false, if_true, neg_mul, and_self]

/-- C9, as amended. The M-ZDOCK distance that `prune` compares with the cutoff
for a seed `i` and another prediction `j` is unchanged when the first and the
second placement of the candidate `j` are exchanged. -/
theorem pairRmsd_swap_candidate {M D : Type} [LinearOrder D] (K : Numerics M D)
    (strucsize : D) (poses0 poses1 : List M) (i j : Nat) (hij : i ≠ j) :
    pairRmsd K true strucsize (swapPlacement poses0 poses1 j).1
        (swapPlacement poses0 poses1 j).2 i j =
      pairRmsd K true strucsize poses0 poses1 i j := by
  unfold swapPlacement
  cases h0 : poses0[j]? with
  | none => rfl
  | some a =>
    cases h1 : poses1[j]? with
    | none => rfl
    | some b =>
      have hj0 := (List.getElem?_eq_some_iff.mp h0).1
      have hj1 := (List.getElem?_eq_some_iff.mp h1).1
      have hji : j ≠ i := fun e => hij e.symm
      simp only [pairRmsd, if_true, List.getElem?_set_ne hji, List.getElem?_set_self hj0,
        List.getElem?_set_self hj1, h0, h1]
      cases poses0[i]? with
      | none => rfl
      | some x => simp only [stdMin_comm (rmsd K strucsize x b)]

/-! ## Concrete inputs -/

/-- The vocabulary on the assignment vector `[1, 2, 1]`: the representatives
are the first two predictions, and cluster by cluster the order is first, third,
second. -/
theorem vocabulary_example :
    representatives [1, 2, 1] = [0, 1] ∧ clusterOrder [1, 2, 1] 2 = [0, 2, 1] ∧
      isRepresentative [1, 2, 1] 2 = false := by
  decide

/-- Three predictions at 0, 1 and 5 on a line with cutoff 2 give the clusters
`{1, 2}` and `{3}`; filter mode keeps the first and the third prediction. -/
theorem prune_filter_line_example :
    prune lineNumerics false false 2 0 [linePred 0 10, linePred 1 9, linePred 5 8] =
      some { predictions := [linePred 0 10, linePred 5 8], clusters_ := [1, 1, 2],
             strucsize_ := 1, nclusters_ := 2 } := by
  decide

/-- C3 fails as stated: with predictions at 0, 5 and 1 and cutoff 2 the third
prediction joins the cluster of the first, and annotate mode lists it before the
second prediction: the output is not the input in rank order with the scores
replaced. -/
theorem prune_annotate_rank_order_counterexample :
    ∃ r, prune lineNumerics false true 2 0 [linePred 0 10, linePred 5 9, linePred 1 8] = some r ∧
      r.clusters_ = [1, 2, 1] ∧
      r.predictions = [linePred 0 1, linePred 1 1, linePred 5 2] ∧
      r.predictions ≠ List.zipWith (fun p c => annotate lineNumerics c p)
        [linePred 0 10, linePred 5 9, linePred 1 8] r.clusters_ ∧
      r.predictions.map (fun p => p.translation) ≠
        [linePred 0 10, linePred 5 9, linePred 1 8].map (fun p => p.translation) :=
  ⟨{ predictions := [linePred 0 1, linePred 1 1, linePred 5 2], clusters_ := [1, 2, 1],
     strucsize_ := 1, nclusters_ := 2 }, by decide, rfl, rfl, by decide, by decide⟩

/-- C5 fails as stated: two predictions at distance 1 and cutoff 1, which is
greater than or equal to the maximum pairwise RMSD, give two clusters. -/
theorem prune_one_cluster_counterexample :
    (∀ i j, i < j → j < 2 → ∀ d,
        dist lineNumerics false 0 [linePred 0 10, linePred 1 9] i j = some d → d ≤ 1) ∧
      prune lineNumerics false false 1 0 [linePred 0 10, linePred 1 9] =
        some { predictions := [linePred 0 10, linePred 1 9], clusters_ := [1, 2],
               strucsize_ := 1, nclusters_ := 2 } := by
  refine ⟨?_, by decide⟩
  intro i j hij hj d hd
  have hi0 : i = 0 := by omega
  have hj1 : j = 1 := by omega
  subst hi0 hj1
  have e : dist lineNumerics false 0 [linePred 0 10, linePred 1 9] 0 1 = some 1 := by decide
  rw [e] at hd
  cases hd
  decide

/-- Witness for C5: two predictions at distance 1 and cutoff 2. -/
theorem prune_one_cluster_witness :
    ∃ r, prune lineNumerics false false 2 0 [linePred 0 10, linePred 1 9] = some r ∧
      r.nclusters_ = 1 ∧ r.clusters_ = List.replicate 2 1 :=
  prune_one_cluster lineNumerics false false 2 0 [linePred 0 10, linePred 1 9]
    (by decide)
    (by
      intro i j hij hj d hd
      have hj' : j < 2 := hj
      have hi0 : i = 0 := by omega
      have hj1 : j = 1 := by omega
      subst hi0 hj1
      have e : dist lineNumerics false 0 [linePred 0 10, linePred 1 9] 0 1 = some 1 := by
        decide
      rw [e] at hd
      cases hd
      decide)

/-- C6 fails as stated: predictions at 0, 0 and 2 with cutoff 1, which is below
the minimum non-zero pairwise RMSD 2, give two clusters, not three: the two
identical poses share a cluster. -/
theorem prune_all_singletons_counterexample :
    (∀ i j, i < j → j < 3 → ∀ d,
        dist lineNumerics false 0 [linePred 0 10, linePred 0 9, linePred 2 8] i j = some d →
        d ≠ 0 → 1 < d) ∧
      prune lineNumerics false false 1 0 [linePred 0 10, linePred 0 9, linePred 2 8] =
        some { predictions := [linePred 0 10, linePred 2 8], clusters_ := [1, 1, 2],
               strucsize_ := 1, nclusters_ := 2 } := by
  refine ⟨?_, by decide⟩
  intro i j hij hj d hd hne
  have hcases : (i = 0 ∧ j = 1) ∨ (i = 0 ∧ j = 2) ∨ (i = 1 ∧ j = 2) := by omega
  rcases hcases with ⟨hi, hj⟩ | ⟨hi, hj⟩ | ⟨hi, hj⟩
  · subst hi hj
    have e : dist lineNumerics false 0 [linePred 0 10, linePred 0 9, linePred 2 8] 0 1 =
        some 0 := by decide
    rw [e] at hd
    cases hd
    exact absurd rfl hne
  · subst hi hj
    have e : dist lineNumerics false 0 [linePred 0 10, linePred 0 9, linePred 2 8] 0 2 =
        some 2 := by decide
    rw [e] at hd
    cases hd
    decide
  · subst hi hj
    have e : dist lineNumerics false 0 [linePred 0 10, linePred 0 9, linePred 2 8] 1 2 =
        some 2 := by decide
    rw [e] at hd
    cases hd
    decide

/-- Witness for C6: two predictions at distance 1 and cutoff 1. -/
theorem prune_all_singletons_witness :
    ∃ r, prune lineNumerics false false 1 0 [linePred 0 10, linePred 1 9] = some r ∧
      r.nclusters_ = 2 ∧ r.clusters_ = List.range' 1 2 :=
  prune_all_singletons lineNumerics false false 1 0 [linePred 0 10, linePred 1 9]
    (by
      intro i j hij hj d hd
      have hj' : j < 2 := hj
      have hi0 : i = 0 := by omega
      have hj1 : j = 1 := by omega
      subst hi0 hj1
      have e : dist lineNumerics false 0 [linePred 0 10, linePred 1 9] 0 1 = some 1 := by
        decide
      rw [e] at hd
      cases hd
      decide)

/-- C8 fails as stated: for the odd box size 5 the index 2 is wrapped to
`2 - 5 = -3`, although `2 * 2 ≥ 5` does not hold. -/
theorem boxTranslation_odd_counterexample :
    boxTranslation (1 : Int) 5 (2, 0, 0) false = (-3, 0, 0) ∧
      (boxTranslation (1 : Int) 5 (2, 0, 0) false).1 ≠
        1 * (if 2 * 2 ≥ (5 : Int) then 2 - 5 else 2) := by
  decide

/-- C9 fails as stated: with the seed placed at 2 and 4 and the candidate at 0
and 2 the M-ZDOCK distance is 0, and it becomes 2 when the two placements of
the seed are exchanged. -/
theorem pairRmsd_swap_seed_counterexample :
    mkPoses lineNumerics true 0 [linePred 2 10, linePred 0 9] = ([2, 0], [4, 2]) ∧
      pairRmsd lineNumerics true 1 [2, 0] [4, 2] 0 1 = some 0 ∧
      swapPlacement [2, 0] [4, 2] 0 = (([4, 0], [2, 2]) : List Int × List Int) ∧
      pairRmsd lineNumerics true 1 [4, 0] [2, 2] 0 1 = some 2 := by
  decide

/-- Witness for C9: exchanging the placements of the candidate. -/
theorem pairRmsd_swap_candidate_witness :
    (0 : Nat) ≠ 1 ∧
      pairRmsd lineNumerics true 1 (swapPlacement [2, 0] [4, 2] 1).1
          (swapPlacement [2, 0] [4, 2] 1).2 0 1 =
        pairRmsd lineNumerics true 1 [2, 0] [4, 2] 0 1 :=
  ⟨by decide, pairRmsd_swap_candidate lineNumerics 1 [2, 0] [4, 2] 0 1 (by decide)⟩

/-- C10 fails as stated: for a structure without CA atoms every distance is
NaN; with cutoff 100 the second of two predictions opens its own cluster, so it
is a representative, although its distance to the earlier representative is
not greater than or equal to the cutoff. -/
theorem prune_greedy_seeds_nan_counterexample :
    ∃ r, prune emptyNumerics false false (Ieee.num 100) () [zeroPred, zeroPred] = some r ∧
      r.clusters_ = [1, 2] ∧
      isRepresentative r.clusters_ 0 = true ∧
      isRepresentative r.clusters_ 1 = true ∧
      dist emptyNumerics false () [zeroPred, zeroPred] 0 1 = some Ieee.nan ∧
      ¬ (Ieee.num 100 ≤ Ieee.nan) ∧
      ¬ (isRepresentative r.clusters_ 1 = true ↔
          ∀ s, s < 1 → isRepresentative r.clusters_ s = true →
            ∃ d, dist emptyNumerics false () [zeroPred, zeroPred] s 1 = some d ∧
              Ieee.num 100 ≤ d) := by
  refine ⟨{ predictions := [zeroPred, zeroPred], clusters_ := [1, 2],
            strucsize_ := Ieee.num 0, nclusters_ := 2 }, by decide, rfl, by decide,
          by decide, by decide, by decide, ?_⟩
  intro h
  obtain ⟨d, hd, hle⟩ := h.mp (by decide) 0 (by decide) (by decide)
  have e : dist emptyNumerics false () [zeroPred, zeroPred] 0 1 = some Ieee.nan := by decide
  rw [e] at hd
  cases hd
  exact absurd hle (by decide)

end zdock
